import Mathlib

/- Verification of the balderdash Markdown-to-Dash converter
   (src/balderdash/markdown_converter.py).

   The converter splits a Markdown document into alternating prose and
   fenced-code blocks using a single regular expression, attaches parsed
   attributes to code blocks, renders each retained block as a Dash
   component expression, and assembles the expressions into a generated
   source file.  The regex engine itself (Python `re`) is an external
   collaborator: `finditer`'s result is passed to `parse_blocks` as an
   explicit list of matches, and the guarantees `finditer` provides
   (matches sorted, non-overlapping, within the text) appear as the
   `validMatchesFrom` hypothesis where they are needed. -/

/-- Block type tags, `MarkdownConverter.code` / `MarkdownConverter.markdown`. -/
inductive BlockType where
  | code
  | markdown
  deriving DecidableEq, Repr

/-- A block dictionary as built by `new_code_block` / `new_text_block`:
the prototypes carry keys `content`, `type`, `IO`, `attributes`; code
blocks additionally receive `raw` and `fence` from the match groupdict.
Keys absent for a given block kind are modelled as the empty string. -/
structure Block where
  type : BlockType
  content : String
  io : String
  attributes : String
  fence : String
  raw : String
  deriving DecidableEq, Repr

/-- `MarkdownConverter.new_text_block(content=...)`. -/
def new_text_block (content : String) : Block :=
  { type := BlockType.markdown, content := content, io := "", attributes := ""
    fence := "", raw := "" }

/-- `MarkdownConverter.new_code_block(**m.groupdict())`: the groupdict of the
default pattern supplies `raw`, `fence`, `attributes` and `content`. -/
def new_code_block (raw fence attributes content : String) : Block :=
  { type := BlockType.code, content := content, io := "", attributes := attributes
    fence := fence, raw := raw }

/-- One `finditer` match of `code_pattern` against the text: its extent
`[start, stop)` (`m.start()` / `m.end()`) and the four named groups. -/
structure Match where
  start : Nat
  stop : Nat
  raw : String
  fence : String
  attributes : String
  content : String
  deriving DecidableEq, Repr

/-- Python slicing `text[i:j]` on the document, viewed as a character list. -/
def pySlice (text : List Char) (i j : Nat) : List Char :=
  (text.take j).drop i

/-- `text_starts = [0] + [m.end() for m in code_matches]`. -/
def text_starts (ms : List Match) : List Nat :=
  0 :: ms.map (fun m => m.stop)

/-- `text_stops = [m.start() for m in code_matches] + [len(text)]`. -/
def text_stops (len : Nat) (ms : List Match) : List Nat :=
  ms.map (fun m => m.start) ++ [len]

/-- `text_limits = list(zip(text_starts, text_stops))`. -/
def text_limits (len : Nat) (ms : List Match) : List (Nat × Nat) :=
  List.zip (text_starts ms) (text_stops len ms)

/-- `text_blocks = [new_text_block(content=text[i:j]) for i, j in text_limits]`. -/
def text_blocks (text : List Char) (ms : List Match) : List Block :=
  (text_limits text.length ms).map
    (fun p => new_text_block (String.mk (pySlice text p.1 p.2)))

/-- `code_blocks = [new_code_block(**m.groupdict()) for m in code_matches]`. -/
def code_blocks (ms : List Match) : List Block :=
  ms.map (fun m => new_code_block m.raw m.fence m.attributes m.content)

/-- The slice-assignment interleaving `all_blocks[::2] = text_blocks;`
`all_blocks[1::2] = code_blocks`, for `len(text_blocks) = len(code_blocks)+1`:
text blocks at even positions, code blocks at odd positions. -/
def interleave {α : Type} : List α → List α → List α
  | t :: ts, c :: cs => t :: c :: interleave ts cs
  | ts, [] => ts
  | [], cs => cs

/-- The pre-elision block sequence of `parse_blocks`. -/
def all_blocks (text : List Char) (ms : List Match) : List Block :=
  interleave (text_blocks text ms) (code_blocks ms)

/-- The elision filter: drop a block iff it is Markdown with empty content
(`not (b["type"] == self.markdown and not b["content"])`). -/
def keepBlock (b : Block) : Bool :=
  !(b.type == BlockType.markdown && b.content == "")

/-- `MarkdownConverter.parse_blocks`, with the `finditer` result passed in
explicitly (the regex engine is an external collaborator). -/
def parse_blocks (text : List Char) (ms : List Match) : List Block :=
  (all_blocks text ms).filter keepBlock

/- ### Attribute sets -/

/-- The result of `PandocAttributes(attr_string, "markdown")`:
id, ordered classes, ordered key-value pairs. -/
structure PandocAttributes where
  id : String
  classes : List String
  kvs : List (String × String)
  deriving DecidableEq, Repr

/-- The whitespace set of Python's `str.strip()` and `str.split()`. -/
def isPyWhitespace (ch : Char) : Bool :=
  ch == ' ' || ch == '\t' || ch == '\n' || ch == '\r' || ch == '\x0b' || ch == '\x0c'

/-- Split a character list on runs of whitespace, dropping empty tokens
(Python `str.split()` with no separator). -/
def splitWsAux (cur : List Char) : List Char → List (List Char)
  | [] => if cur.isEmpty then [] else [cur.reverse]
  | ch :: rest =>
    if isPyWhitespace ch then
      if cur.isEmpty then splitWsAux [] rest else cur.reverse :: splitWsAux [] rest
    else splitWsAux (ch :: cur) rest

/-- Append a class, collapsing duplicates while preserving first-seen order. -/
def insertClass (cs : List String) (c : String) : List String :=
  if c ∈ cs then cs else cs ++ [c]

/-- Insert a key-value pair preserving insertion order, a later duplicate key
overwriting the earlier value. -/
def insertKV (kvs : List (String × String)) (k v : String) : List (String × String) :=
  if kvs.any (fun p => p.1 == k) then
    kvs.map (fun p => if p.1 == k then (k, v) else p)
  else kvs ++ [(k, v)]

/-- Fold one attribute token into the accumulated attribute set: a `#`
token sets the id, a `.` token declares a class, a token containing `=`
declares a key-value pair (split at the first `=`), a bare word counts as
a class. -/
def parseAttrToken (acc : PandocAttributes) (tok : List Char) : PandocAttributes :=
  match tok with
  | '#' :: rest => { acc with id := String.mk rest }
  | '.' :: rest => { acc with classes := insertClass acc.classes (String.mk rest) }
  | _ =>
    if tok.contains '=' then
      let k := String.mk (tok.takeWhile (fun ch => !(ch == '=')))
      let v := String.mk ((tok.dropWhile (fun ch => !(ch == '='))).drop 1)
      { acc with kvs := insertKV acc.kvs k v }
    else { acc with classes := insertClass acc.classes (String.mk tok) }

/-- Modelled from the spec: the markdown-dialect attribute parser of the
external `pandocattributes` package (not part of src).  Spec §4.2: "parse
the raw `attributes` string into an Attribute Set scoped to a
"markdown-attributes" dialect (supports `#id`, `.class`, `key=value` tokens
inside the original brace delimiters)"; §3: classes are an ordered set
(first-seen order, duplicates collapse) and key-values preserve insertion
order.  Tokens are whitespace-separated; a bare word counts as a class. -/
def parseAttributes (s : String) : PandocAttributes :=
  (splitWsAux [] s.toList).foldl parseAttrToken { id := "", classes := [], kvs := [] }

/-- `"app" in attrs.kvs`. -/
def hasKey (kvs : List (String × String)) (k : String) : Bool :=
  kvs.any (fun p => p.1 == k)

/-- `attrs[k]`: the value stored for key `k` (only used under a `hasKey`
guard, so the default is irrelevant). -/
def getKV (kvs : List (String × String)) (k : String) : String :=
  ((kvs.find? (fun p => p.1 == k)).map Prod.snd).getD ""

/- ### Component construction -/

/-- The run-time error raised when a `@staticmethod` body evaluates the
unbound name `self`. -/
def nameErrorSelf : String := "NameError: name \x27self\x27 is not defined"

/-- Python truthiness of an optional string (`None` and `""` are falsy). -/
def truthyStr : Option String → Bool
  | some s => s != ""
  | none => false

/-- Python truthiness of an optional list (`None` and `[]` are falsy). -/
def truthyList : Option (List String) → Bool
  | some l => !l.isEmpty
  | none => false

/-- `", ".join(f"{name}={value}" for name, value in kwargs.items())`. -/
def kwargsStr (kwargs : List (String × String)) : String :=
  String.intercalate ", " (kwargs.map (fun p => p.1 ++ "=" ++ p.2))

/-- `f\x27"""\n{content}"""\x27`, the triple-quoted children payload. -/
def tripleQuoted (content : String) : String :=
  "\"\"\"\n" ++ content ++ "\"\"\""

/-- `MarkdownConverter.make_markdown_component`.  It is a `@staticmethod`,
yet when `classes` is truthy its body evaluates `self.dash_layout_classes`;
`self` is unbound there, so Python raises `NameError` — modelled as the
error case.  Otherwise kwargs are assembled in order: `children` if the
content is non-empty, `id` if `component_id` is truthy. -/
def make_markdown_component (content : String) (component_id : Option String)
    (classes : Option (List String)) : Except String String :=
  if truthyList classes then Except.error nameErrorSelf
  else
    Except.ok ("dcc.Markdown(" ++ kwargsStr
      ((if content != "" then [("children", tripleQuoted content)] else [])
        ++ (if truthyStr component_id then [("id", component_id.getD "")] else [])) ++ ")")

/-- `MarkdownConverter.make_dash_component`.  Same `@staticmethod`-meets-
`self` bug as `make_markdown_component`: a truthy `classes` raises
`NameError`.  Otherwise kwargs are: `children` = the `load_dash_app` call
(verbatim from the source, including its unbalanced parenthesis), then `id`
if truthy. -/
def make_dash_component (path : String) (component_id : Option String)
    (classes : Option (List String)) : Except String String :=
  if truthyList classes then Except.error nameErrorSelf
  else
    Except.ok ("html.Div(" ++ kwargsStr
      ([("children", "load_dash_app(\x27" ++ path ++ "\x27, app=app")]
        ++ (if truthyStr component_id then [("id", component_id.getD "")] else [])) ++ ")")

/- ### Converter configuration -/

/-- A compiled pattern, modelled by the data `__init__` and `parse_blocks`
observe of it: its named capture groups.  `re.compile` succeeds for any
syntactically valid pattern regardless of which group names it defines. -/
structure Pattern where
  groupNames : List String
  deriving DecidableEq, Repr

/-- The named groups the default `code_regex` defines and
`new_code_block(**m.groupdict())` relies on. -/
def requiredGroupNames : List String := ["raw", "fence", "attributes", "content"]

/-- The compiled default `MarkdownConverter.code_regex`. -/
def defaultCodePattern : Pattern := { groupNames := requiredGroupNames }

/-- The converter state set up by `__init__`. -/
structure MarkdownConverter where
  precode : String
  indent : String
  app_precode : String
  app_path : String
  code_pattern : Pattern
  markdown_classes : List String
  dash_layout_classes : List String
  deriving DecidableEq, Repr

/-- `MarkdownConverter.__init__`: store the configuration, substituting the
class-level defaults for omitted arguments, and compile the (possibly
caller-supplied) pattern.  The source performs no validation of the
supplied pattern's capture groups, so construction is total. -/
def mkConverter (code_regex : Option Pattern) (precode : String) (app_precode : String)
    (markdown_classes : Option (List String)) (dash_layout_classes : Option (List String))
    (app_path : String) (indent : String) : MarkdownConverter :=
  { precode := precode
    indent := indent
    app_precode := app_precode
    app_path := app_path
    code_pattern := code_regex.getD defaultCodePattern
    markdown_classes := markdown_classes.getD ["dash-markdown"]
    dash_layout_classes := dash_layout_classes.getD ["dash-layout"] }

/-- `MarkdownConverter()` with all keyword defaults. -/
def defaultConverter : MarkdownConverter :=
  mkConverter none "" "" none none "." "    "

/-- Models `pathlib`'s `Path(base) / rel` for the relative paths this
converter produces: `Path(".") / p` stringifies to `p`, otherwise the two
components are joined with a slash. -/
def pathJoin (base rel : String) : String :=
  if base == "." then rel else base ++ "/" ++ rel

/-- Python `content.strip()`. -/
def pyStrip (s : String) : String :=
  String.mk (((s.toList.dropWhile isPyWhitespace).reverse.dropWhile isPyWhitespace).reverse)

/-- `MarkdownConverter.preprocess_markdown`. -/
def preprocess_markdown (content : String) : String :=
  pyStrip content

/-- The body of the `for block in blocks` loop of `blocks_to_components`:
`none` models `continue` (the block contributes nothing), `some s` a yielded
component expression, `Except.error` a raised exception. -/
def renderBlock (c : MarkdownConverter) (b : Block) : Except String (Option String) :=
  if b.type == BlockType.markdown then
    (make_markdown_component (preprocess_markdown b.content) none none).map some
  else
    let attrs := parseAttributes b.attributes
    if "dash" ∉ attrs.classes then Except.ok none
    else if hasKey attrs.kvs "app" then
      (make_dash_component (pathJoin c.app_path (getKV attrs.kvs "app"))
        (if attrs.id != "" then some attrs.id else none)
        (some (attrs.classes.filter (fun cl => !(cl == "dash" || cl == "app"))))).map some
    else Except.ok none

/-- `MarkdownConverter.blocks_to_components`, fully consumed (as `to_dash`
consumes the generator): the yielded expressions in order, or the first
raised exception. -/
def blocks_to_components (c : MarkdownConverter) : List Block → Except String (List String)
  | [] => Except.ok []
  | b :: bs =>
    match renderBlock c b with
    | Except.error e => Except.error e
    | Except.ok none => blocks_to_components c bs
    | Except.ok (some s) => (blocks_to_components c bs).map (fun l => s :: l)

/-- The component expression block `b` contributes, if any (and if no
exception is raised on it). -/
def renderedComponent (c : MarkdownConverter) (b : Block) : Option String :=
  match renderBlock c b with
  | Except.ok (some s) => some s
  | _ => none

/-- The fixed `dash_app` template of `to_dash`, with the joined layout
interpolated. -/
def dashAppTemplate (layout : String) : String :=
  "from dash import Dash, dcc, html\nfrom balderdash import load_dash_app\n\napp = Dash(__name__)\n        \napp.layout = html.Div(\n    [\n        " ++ layout ++ "\n    ]\n)\n"

/-- `MarkdownConverter.to_dash`.  `format_str` models the external
`black.format_str(_, mode=FileMode())` collaborator; the `finditer`
`finditer` result on `text`.  Note the `blacken` parameter is accepted but
never read: formatting is applied unconditionally. -/
def to_dash (c : MarkdownConverter) (format_str : String → String)
    (text : List Char) (ms : List Match) (blacken : Bool) : Except String String :=
  match blocks_to_components c (parse_blocks text ms) with
  | Except.error e => Except.error e
  | Except.ok comps =>
    Except.ok (format_str (dashAppTemplate
      (String.intercalate (",\n" ++ c.indent) comps)))

/- ### The attribute sub-pattern of code_regex -/

/-- An opening brace character. -/
def lbrace : Char := Char.ofNat 123

/-- A closing brace character. -/
def rbrace : Char := Char.ofNat 125

/-- The character class directly after the fence in `code_regex`: blanks. -/
def isBlankChar (ch : Char) : Bool :=
  ch == ' ' || ch == '\t'

/-- The attribute-capturing portion of `code_regex`: after the opening
fence the pattern reads an opening brace preceded by optional blanks, then
the greedy group `(?P<attributes>.*)` (no DOTALL, so confined to the fence
line), then a closing brace.  Backtracking of the greedy `.*` makes the
group end at the last closing brace on the line (the remainder of the line
is absorbed by the lazy `content` group of the overall pattern), so the
captured text runs from the first opening brace to the last closing brace,
with no balancing of braces in between.  `line` is the fence line after
the backtick fence itself; `none` means the sub-pattern fails there. -/
def matchAttributeHeader (line : List Char) : Option (List Char) :=
  match line.dropWhile isBlankChar with
  | [] => none
  | ch :: rest =>
    if ch == lbrace then
      match rest.reverse.dropWhile (fun d => !(d == rbrace)) with
      | [] => none
      | _ :: tail => some tail.reverse
    else none

/- ### Match validity and extents -/

/-- The guarantees `finditer` provides for its match list on a text of
length `len`, starting the scan at offset `lo`: matches are returned in
increasing position order, are non-overlapping, have non-negative width and
lie inside the text. -/
def validMatchesFrom (lo len : Nat) : List Match → Bool
  | [] => decide (lo ≤ len)
  | m :: rest =>
    decide (lo ≤ m.start) && decide (m.start ≤ m.stop) && validMatchesFrom m.stop len rest

/-- The `(start, stop)` extents of the code matches. -/
def code_limits (ms : List Match) : List (Nat × Nat) :=
  ms.map (fun m => (m.start, m.stop))

/-- The `(start, end)` extents of the pre-elision block sequence of
`parse_blocks`, in order: `text_limits` at even positions and the match
extents at odd positions, exactly as the blocks are interleaved. -/
def all_extents (len : Nat) (ms : List Match) : List (Nat × Nat) :=
  interleave (text_limits len ms) (code_limits ms)

/-- The extent list tiles `[lo, hi)` exactly: each extent starts where the
previous one stopped, extents are well-formed, and the last one stops at
`hi` — no gaps and no overlaps. -/
def extentsCover (lo hi : Nat) : List (Nat × Nat) → Bool
  | [] => decide (lo = hi)
  | e :: es => decide (lo = e.1) && decide (e.1 ≤ e.2) && extentsCover e.2 hi es

/-- Two blocks are not both Markdown (prose). -/
def noMdMd (a b : Block) : Prop :=
  ¬(a.type = BlockType.markdown ∧ b.type = BlockType.markdown)

/- ### Concrete fixtures -/

/-- Two adjacent tagged fences with no prose between them (spec Scenario D):
`"```{.dash app=a.py}\na\n```\n```{.dash app=b.py}\nb\n```\n"`. -/
def twoFenceText : List Char :=
  String.toList "```\x7b.dash app=a.py\x7d\na\n```\n```\x7b.dash app=b.py\x7d\nb\n```\n"

/-- The `finditer` result of `code_pattern` on `twoFenceText`: the pattern
anchors at line starts 0 and 26; in each match the attribute group spans
the text inside the braces of the fence line, the lazy content group stops
at the first closing fence, and the raw group is the whole match, so the
first match covers `[0, 26)` and the second `[26, 52)` (the text has 52
characters). -/
def twoFenceMatches : List Match :=
  [{ start := 0, stop := 26, raw := "```\x7b.dash app=a.py\x7d\na\n```\n"
     fence := "```", attributes := ".dash app=a.py", content := "a" },
   { start := 26, stop := 52, raw := "```\x7b.dash app=b.py\x7d\nb\n```\n"
     fence := "```", attributes := ".dash app=b.py", content := "b" }]

/-- A compiled custom pattern defining no named capture groups at all. -/
def groupLessPattern : Pattern := { groupNames := [] }

/-- Spec Scenario E's code block: attributes `#myid .dash .extra app=sub.py`. -/
def scenarioEBlock : Block :=
  { type := BlockType.code, content := "ignored", io := ""
    attributes := "#myid .dash .extra app=sub.py", fence := "```", raw := "" }

/- ### Theorems -/

/-- C1: spec Scenario E promises that a fence with attributes
`#myid .dash .extra app=sub.py` renders to an embedded-app expression with
`id = myid` and a class string containing `extra` plus the layout classes.
The code instead raises `NameError`: `make_dash_component` is a
`@staticmethod`, yet with a truthy `classes` argument its body evaluates
`self.dash_layout_classes`, and `self` is unbound there.  This theorem
evaluates the embedded code at the failing input. -/
theorem scenarioE_raises_nameerror :
    renderBlock defaultConverter scenarioEBlock = Except.error nameErrorSelf := by
  rfl

/-- C9: the code emits the stripped prose content as the `children` payload,
but applies no display classes at all — `blocks_to_components` never passes
`markdown_classes` (the emitted expression has no `className` keyword), and
if the classes were passed, `make_markdown_component` would raise
`NameError` on its unbound `self`.  Both facts evaluated here. -/
theorem prose_component_has_no_classes :
    renderBlock defaultConverter
        { type := BlockType.markdown, content := "Hello", io := ""
          attributes := "", fence := "", raw := "" }
      = Except.ok (some "dcc.Markdown(children=\"\"\"\nHello\"\"\")")
    ∧ make_markdown_component "Hello" none (some defaultConverter.markdown_classes)
      = Except.error nameErrorSelf := by
  constructor
  · rfl
  · rfl

/-- C2 counterexample: a document consisting of a single space character has
one PROSE block whose content strips to empty, yet the renderer still emits
a component expression for it — the bare `dcc.Markdown()` — so the
component list is not empty as the claim states. -/
theorem whitespace_doc_component_list_not_empty :
    blocks_to_components defaultConverter (parse_blocks (String.toList " ") [])
      = Except.ok ["dcc.Markdown()"]
    ∧ (["dcc.Markdown()"] : List String) ≠ [] := by
  constructor
  · rfl
  · decide

/-- C7 counterexample: constructing the converter with a custom pattern that
defines none of the required capture groups completes normally and returns
an ordinary converter holding that pattern — no configuration error is
raised at construction time. -/
theorem construction_accepts_groupless_pattern :
    mkConverter (some groupLessPattern) "" "" none none "." "    "
      = { precode := "", indent := "    ", app_precode := "", app_path := "."
          code_pattern := groupLessPattern, markdown_classes := ["dash-markdown"]
          dash_layout_classes := ["dash-layout"] }
    ∧ ∀ g ∈ requiredGroupNames, g ∉ groupLessPattern.groupNames := by
  constructor
  · decide
  · decide

/-- C7 amended: `__init__` performs no validation of a caller-supplied
pattern's capture groups; construction always succeeds and stores the
pattern as given, whatever its group names.  Missing groups surface only
later, when a match's groupdict lacks the expected keys. -/
theorem construction_never_validates_groups (p : Pattern) (pre apre ap ind : String)
    (mc dlc : Option (List String)) :
    (mkConverter (some p) pre apre mc dlc ap ind).code_pattern = p :=
  rfl

/-- C10: `to_dash` accepts a `blacken` keyword but never reads it — the
source-formatting step is applied unconditionally — so the output is the
same for `blacken = true` and `blacken = false` (and any two values). -/
theorem to_dash_blacken_no_effect (c : MarkdownConverter) (format_str : String → String)
    (text : List Char) (ms : List Match) (b1 b2 : Bool) :
    to_dash c format_str text ms b1 = to_dash c format_str text ms b2 :=
  rfl

/-- C3: a code block whose parsed attribute classes do not include the
marker class `dash` contributes no component expression (the loop
`continue`s), whatever its content; and a marked block with no `app` key
among its key-values is likewise skipped without error. -/
theorem untagged_or_pathless_code_skipped (c : MarkdownConverter) (b : Block)
    (hb : b.type = BlockType.code) :
    ("dash" ∉ (parseAttributes b.attributes).classes →
      renderBlock c b = Except.ok none)
    ∧ ("app" ∉ (parseAttributes b.attributes).kvs.map Prod.fst →
      renderBlock c b = Except.ok none) := by
  constructor
  · intro h
    simp [renderBlock, hb, h]
  · intro h
    have hk : hasKey (parseAttributes b.attributes).kvs "app" = false := by
      simp only [hasKey, List.any_eq_false]
      intro p hp
      simp only [beq_iff_eq]
      intro hcontra
      exact h (hcontra ▸ List.mem_map_of_mem Prod.fst hp)
    by_cases hd : "dash" ∈ (parseAttributes b.attributes).classes
    · simp [renderBlock, hb, hd, hk]
    · simp [renderBlock, hb, hd]

/-- Witness for C3: a `.python` fence is skipped (no marker class), and a
`.dash` fence without an `app` key is skipped. -/
theorem untagged_or_pathless_code_skipped_witness :
    renderBlock defaultConverter
        { type := BlockType.code, content := "x=1", io := ""
          attributes := ".python", fence := "```", raw := "" }
      = Except.ok none
    ∧ renderBlock defaultConverter
        { type := BlockType.code, content := "y", io := ""
          attributes := ".dash", fence := "```", raw := "" }
      = Except.ok none :=
  ⟨(untagged_or_pathless_code_skipped defaultConverter _ rfl).1 (by decide),
   (untagged_or_pathless_code_skipped defaultConverter _ rfl).2 (by decide)⟩

/-- `interleave ts [] = ts`. -/
theorem interleave_nil {α : Type} (ts : List α) : interleave ts [] = ts := by
  cases ts <;> rfl

/-- C6 counterexample: a fence line whose attribute braces are unbalanced —
`{a{b}` carries the bare unbalanced brace `{` inside — is matched by the
attribute sub-pattern rather than rejected, capturing `a{b`.  (The pattern
is a greedy `.*` between two literal braces; it does no balancing.) -/
theorem unbalanced_braces_accepted :
    matchAttributeHeader (String.toList "\x7ba\x7bb\x7d") = some (String.toList "a\x7bb") := by
  rfl

/-- C6 amended: the attribute sub-pattern accepts any brace-delimited text,
balanced or not: on a fence line made of blanks, an opening brace, arbitrary
text `a`, and a final closing brace followed by brace-free trailing text,
the captured attribute string is exactly `a` — the text between the first
opening brace and the last closing brace on the line.  In particular nested
balanced braces inside `a` are captured in full, and bare unbalanced braces
inside `a` are accepted silently. -/
theorem attr_capture_first_to_last_brace (blanks a rest : List Char)
    (hb : ∀ ch ∈ blanks, isBlankChar ch = true) (hr : rbrace ∉ rest) :
    matchAttributeHeader (blanks ++ lbrace :: (a ++ rbrace :: rest)) = some a := by
  have hlb : isBlankChar lbrace = false := by decide
  have h1 : (blanks ++ lbrace :: (a ++ rbrace :: rest)).dropWhile isBlankChar
      = lbrace :: (a ++ rbrace :: rest) := by
    induction blanks with
    | nil => simp [List.dropWhile_cons, hlb]
    | cons x xs ih =>
      have hx : isBlankChar x = true := hb x (by simp)
      have ih' := ih (fun ch hch => hb ch (by simp [hch]))
      simpa [List.dropWhile_cons, hx] using ih'
  have h3 : (a ++ rbrace :: rest).reverse.dropWhile (fun d => !(d == rbrace))
      = rbrace :: a.reverse := by
    have hnil : rest.reverse.dropWhile (fun d => !(d == rbrace)) = [] := by
      rw [List.dropWhile_eq_nil_iff]
      intro x hx
      simp only [Bool.not_eq_true', beq_eq_false_iff_ne, ne_eq]
      intro hcontra
      exact hr (hcontra ▸ List.mem_reverse.mp hx)
    have hrb : (fun d => !(d == rbrace)) rbrace = false := by simp
    rw [List.reverse_append, List.reverse_cons, List.append_assoc, List.singleton_append,
      List.dropWhile_append, hnil]
    simp [List.dropWhile_cons, hrb]
  unfold matchAttributeHeader
  rw [h1]
  simp only [beq_self_eq_true, if_true, h3, List.reverse_reverse]

/-- Witness for C6 amended: a blank, then `{.dash {nested}}` — the nested
balanced braces are captured in full: attributes = `.dash {nested}`. -/
theorem attr_capture_first_to_last_brace_witness :
    matchAttributeHeader ([' '] ++ lbrace :: (String.toList ".dash \x7bnested\x7d" ++ rbrace :: []))
      = some (String.toList ".dash \x7bnested\x7d") :=
  attr_capture_first_to_last_brace [' '] (String.toList ".dash \x7bnested\x7d") []
    (by decide) (by decide)

/-- C2 amended: the renderer emits one text-display expression for every
PROSE block unconditionally; on a non-empty whitespace-only document the
single prose block survives segmentation (its raw content is non-empty),
its content strips to empty, and the emitted expression is the bare
`dcc.Markdown()` — so the component list has exactly one element rather
than being empty. -/
theorem whitespace_doc_single_empty_markdown (text : List Char)
    (hne : text ≠ []) (hws : ∀ ch ∈ text, isPyWhitespace ch = true) :
    blocks_to_components defaultConverter (parse_blocks text [])
      = Except.ok ["dcc.Markdown()"] := by
  have hkeep : keepBlock (new_text_block (String.mk text)) = true := by
    cases text with
    | nil => exact absurd rfl hne
    | cons c cs => rfl
  have hblocks : parse_blocks text [] = [new_text_block (String.mk text)] := by
    simp [parse_blocks, all_blocks, text_blocks, text_limits, text_starts, text_stops,
      code_blocks, interleave_nil, pySlice, List.filter_cons, hkeep]
  have hstrip : preprocess_markdown (String.mk text) = "" := by
    have h1 : text.dropWhile isPyWhitespace = [] :=
      List.dropWhile_eq_nil_iff.mpr (fun x hx => hws x hx)
    simp [preprocess_markdown, pyStrip, String.toList, h1]
  have hrender : renderBlock defaultConverter (new_text_block (String.mk text))
      = Except.ok (some "dcc.Markdown()") := by
    simp only [renderBlock, new_text_block]
    rw [if_pos (by rfl)]
    rw [hstrip]
    rfl
  rw [hblocks]
  simp [blocks_to_components, hrender, Except.map]

/-- Witness for C2 amended: the single-space document. -/
theorem whitespace_doc_single_empty_markdown_witness :
    String.toList " " ≠ []
    ∧ blocks_to_components defaultConverter (parse_blocks (String.toList " ") [])
      = Except.ok ["dcc.Markdown()"] :=
  ⟨by decide,
   whitespace_doc_single_empty_markdown (String.toList " ") (by decide) (by decide)⟩

/-- Every text block is a Markdown block. -/
theorem text_blocks_types (text : List Char) (ms : List Match) :
    ∀ b ∈ text_blocks text ms, b.type = BlockType.markdown := by
  intro b hb
  simp only [text_blocks, List.mem_map] at hb
  obtain ⟨p, _, rfl⟩ := hb
  rfl

/-- Every code block is a code block. -/
theorem code_blocks_types (ms : List Match) :
    ∀ b ∈ code_blocks ms, b.type = BlockType.code := by
  intro b hb
  simp only [code_blocks, List.mem_map] at hb
  obtain ⟨m, _, rfl⟩ := hb
  rfl

/-- With `N` code matches there are `N + 1` text blocks. -/
theorem text_blocks_length (text : List Char) (ms : List Match) :
    (text_blocks text ms).length = ms.length + 1 := by
  simp [text_blocks, text_limits, text_starts, text_stops, List.length_zip]

/-- With `N` code matches there are `N` code blocks. -/
theorem code_blocks_length (ms : List Match) :
    (code_blocks ms).length = ms.length := by
  simp [code_blocks]

/-- A code block passes the elision filter. -/
theorem keepBlock_of_code (b : Block) (hb : b.type = BlockType.code) :
    keepBlock b = true := by
  simp [keepBlock, hb]

/-- Filtering the interleaving of Markdown blocks with code blocks (one more
Markdown block than code blocks) never leaves two Markdown blocks adjacent:
every dropped block is Markdown, and between two Markdown blocks of the
interleaving there is a code block, which the filter always keeps. -/
theorem chain_filter_interleave (cs : List Block) :
    ∀ ts : List Block, ts.length = cs.length + 1 →
    (∀ b ∈ ts, b.type = BlockType.markdown) → (∀ b ∈ cs, b.type = BlockType.code) →
    List.Chain' noMdMd ((interleave ts cs).filter keepBlock) := by
  induction cs with
  | nil =>
    intro ts hlen _hts _hcs
    obtain ⟨t, rfl⟩ := List.length_eq_one.mp hlen
    rw [interleave_nil]
    by_cases h : keepBlock t
    · simp [List.filter_cons, h]
    · simp [List.filter_cons, h]
  | cons c cs' ih =>
    intro ts hlen hts hcs
    cases ts with
    | nil => simp at hlen
    | cons t ts' =>
      have hlen' : ts'.length = cs'.length + 1 := by simpa using hlen
      have hct : c.type = BlockType.code := hcs c (by simp)
      have hkc : keepBlock c = true := keepBlock_of_code c hct
      have hcs' : ∀ b ∈ cs', b.type = BlockType.code := fun b hb => hcs b (by simp [hb])
      have hts' : ∀ b ∈ ts', b.type = BlockType.markdown := fun b hb => hts b (by simp [hb])
      have hchain : List.Chain' noMdMd (c :: (interleave ts' cs').filter keepBlock) := by
        apply List.chain'_cons'.mpr
        refine ⟨?_, ih ts' hlen' hts' hcs'⟩
        intro y _hy hcontra
        rw [hct] at hcontra
        exact absurd hcontra.1 (by simp)
      rw [show interleave (t :: ts') (c :: cs') = t :: c :: interleave ts' cs' from rfl]
      by_cases hkt : keepBlock t
      · rw [List.filter_cons_of_pos hkt, List.filter_cons_of_pos hkc]
        apply List.chain'_cons.mpr
        refine ⟨?_, hchain⟩
        intro hcontra
        rw [hct] at hcontra
        exact absurd hcontra.2 (by simp)
      · rw [List.filter_cons_of_neg (by simpa using hkt), List.filter_cons_of_pos hkc]
        exact hchain

/-- C4 counterexample: on the document with two adjacent tagged fences and
no prose between them (`twoFenceText`, with the matches `finditer` returns
on it), the empty prose spans before, between and after the fences are
elided and the resulting block sequence is exactly two consecutive CODE
blocks — contradicting the claim that no two consecutive blocks are CODE. -/
theorem adjacent_fences_consecutive_code :
    (parse_blocks twoFenceText twoFenceMatches).map Block.type
      = [BlockType.code, BlockType.code] := by
  rfl

/-- C4 amended: what the construction does guarantee is the dual property —
after empty-PROSE elision no two consecutive blocks are both PROSE: the
pre-elision sequence strictly alternates, only PROSE blocks are dropped,
and every pair of PROSE blocks is separated by a CODE block, which is never
dropped.  (Two consecutive CODE blocks do occur whenever the prose span
between two fences is empty.) -/
theorem no_two_consecutive_prose (text : List Char) (ms : List Match) :
    List.Chain' noMdMd (parse_blocks text ms) := by
  rw [parse_blocks, all_blocks]
  exact chain_filter_interleave (code_blocks ms) (text_blocks text ms)
    (by rw [text_blocks_length, code_blocks_length])
    (text_blocks_types text ms) (code_blocks_types ms)

/-- The interleaving of two lists has their combined length. -/
theorem interleave_length {α : Type} (ts : List α) :
    ∀ cs : List α, (interleave ts cs).length = ts.length + cs.length := by
  induction ts with
  | nil => intro cs; cases cs <;> simp [interleave]
  | cons t ts' ih =>
    intro cs
    cases cs with
    | nil => simp [interleave]
    | cons c cs' =>
      rw [show interleave (t :: ts') (c :: cs') = t :: c :: interleave ts' cs' from rfl]
      simp [ih cs']
      omega


/-- In the interleaving of `N + 1` Markdown blocks with `N` code blocks,
the block at every even position is Markdown and at every odd position is
code. -/
theorem interleave_getElem_type (cs : List Block) :
    ∀ ts : List Block, ts.length = cs.length + 1 →
    (∀ b ∈ ts, b.type = BlockType.markdown) → (∀ b ∈ cs, b.type = BlockType.code) →
    ∀ i b, (interleave ts cs)[i]? = some b →
      b.type = if i % 2 = 0 then BlockType.markdown else BlockType.code := by
  induction cs with
  | nil =>
    intro ts hlen hts _hcs i b hb
    obtain ⟨t, rfl⟩ := List.length_eq_one.mp hlen
    rw [interleave_nil] at hb
    match i, hb with
    | 0, hb =>
      have hbt : t = b := by simpa using hb
      subst hbt
      simpa using hts t (by simp)
    | (j + 1), hb => simp at hb
  | cons c cs' ih =>
    intro ts hlen hts hcs i b hb
    cases ts with
    | nil => simp at hlen
    | cons t ts' =>
      have hlen' : ts'.length = cs'.length + 1 := by simpa using hlen
      have hts' : ∀ x ∈ ts', x.type = BlockType.markdown := fun x hx => hts x (by simp [hx])
      have hcs' : ∀ x ∈ cs', x.type = BlockType.code := fun x hx => hcs x (by simp [hx])
      rw [show interleave (t :: ts') (c :: cs') = t :: c :: interleave ts' cs' from rfl] at hb
      match i, hb with
      | 0, hb =>
        have hbt : t = b := by simpa using hb
        subst hbt
        simpa using hts t (by simp)
      | 1, hb =>
        have hbc : c = b := by simpa using hb
        subst hbc
        simpa using hcs c (by simp)
      | (j + 2), hb =>
        have hb' : (interleave ts' cs')[j]? = some b := by simpa using hb
        have hrec := ih ts' hlen' hts' hcs' j b hb'
        rw [Nat.add_mod_right]
        exact hrec

/-- If the generator completes without an exception, the emitted component
expressions are exactly the per-block results in block order: no
reordering, no deduplication. -/
theorem blocks_to_components_ok (c : MarkdownConverter) :
    ∀ (bs : List Block) (comps : List String),
      blocks_to_components c bs = Except.ok comps →
      comps = bs.filterMap (renderedComponent c) := by
  intro bs
  induction bs with
  | nil =>
    intro comps h
    simp only [blocks_to_components] at h
    cases h
    simp
  | cons b bs' ih =>
    intro comps h
    rw [blocks_to_components] at h
    cases hr : renderBlock c b with
    | error e => rw [hr] at h; cases h
    | ok o =>
      cases o with
      | none =>
        rw [hr] at h
        rw [List.filterMap_cons]
        simp only [renderedComponent, hr]
        exact ih comps h
      | some s =>
        rw [hr] at h
        cases hrec : blocks_to_components c bs' with
        | error e => rw [hrec] at h; cases h
        | ok l =>
          rw [hrec] at h
          simp only [Except.map] at h
          cases h
          rw [List.filterMap_cons]
          simp only [renderedComponent, hr]
          rw [← ih l hrec]

/-- C8: the pre-elision block sequence of a document with `N` code matches
has length `2N + 1`, prose at even and code at odd positions; and when the
renderer completes, the emitted component expressions are the per-block
render results of the (elided) block sequence in exact document order — no
reordering and no deduplication. -/
theorem components_preserve_block_order (text : List Char) (ms : List Match)
    (c : MarkdownConverter) (comps : List String)
    (hok : blocks_to_components c (parse_blocks text ms) = Except.ok comps) :
    (all_blocks text ms).length = 2 * ms.length + 1
    ∧ (∀ i b, (all_blocks text ms)[i]? = some b →
        b.type = if i % 2 = 0 then BlockType.markdown else BlockType.code)
    ∧ comps = (parse_blocks text ms).filterMap (renderedComponent c) := by
  refine ⟨?_, ?_, blocks_to_components_ok c _ comps hok⟩
  · rw [all_blocks, interleave_length, text_blocks_length, code_blocks_length]
    omega
  · exact interleave_getElem_type (code_blocks ms) (text_blocks text ms)
      (by rw [text_blocks_length, code_blocks_length])
      (text_blocks_types text ms) (code_blocks_types ms)

/-- Witness for C8: the document `"hi"` with no code matches renders to the
single prose component, which is the filterMap of the block list; the
pre-elision sequence has length `2·0 + 1`. -/
theorem components_preserve_block_order_witness :
    (all_blocks (String.toList "hi") ([] : List Match)).length
      = 2 * ([] : List Match).length + 1
    ∧ ["dcc.Markdown(children=\"\"\"\nhi\"\"\")"]
      = (parse_blocks (String.toList "hi") ([] : List Match)).filterMap
          (renderedComponent defaultConverter) :=
  ⟨(components_preserve_block_order (String.toList "hi") [] defaultConverter
      ["dcc.Markdown(children=\"\"\"\nhi\"\"\")"] (by rfl)).1,
   (components_preserve_block_order (String.toList "hi") [] defaultConverter
      ["dcc.Markdown(children=\"\"\"\nhi\"\"\")"] (by rfl)).2.2⟩

/-- A covering extent list runs from a lower to a higher cut point. -/
theorem extentsCover_le :
    ∀ (es : List (Nat × Nat)) (lo hi : Nat), extentsCover lo hi es = true → lo ≤ hi := by
  intro es
  induction es with
  | nil =>
    intro lo hi h
    simp [extentsCover] at h
    omega
  | cons e es' ih =>
    intro lo hi h
    simp only [extentsCover, Bool.and_eq_true, decide_eq_true_eq] at h
    obtain ⟨⟨h1, h2⟩, h3⟩ := h
    have := ih e.2 hi h3
    omega

/-- Adjacent slices concatenate: `text[a:b] + text[b:c] = text[a:c]`
for `a ≤ b ≤ c ≤ len(text)`. -/
theorem pySlice_append (text : List Char) (a b c : Nat) (hab : a ≤ b) (hbc : b ≤ c)
    (hc : c ≤ text.length) : pySlice text a b ++ pySlice text b c = pySlice text a c := by
  unfold pySlice
  have h1 : text.take b = (text.take c).take b := by
    rw [List.take_take]
    congr 1
    omega
  rw [h1]
  have hlen : ((text.take c).take b).length = b := by
    simp [List.length_take]
    omega
  conv_rhs => rw [← List.take_append_drop b (text.take c)]
  rw [List.drop_append_eq_append_drop, hlen, Nat.sub_eq_zero_of_le hab, List.drop_zero]

/-- Concatenating the slices of a covering extent list yields the covered
slice of the text. -/
theorem extentsCover_join (text : List Char) :
    ∀ (es : List (Nat × Nat)) (lo hi : Nat),
      extentsCover lo hi es = true → hi ≤ text.length →
      ((es.map (fun e => pySlice text e.1 e.2)).flatten : List Char) = pySlice text lo hi := by
  intro es
  induction es with
  | nil =>
    intro lo hi h _hhi
    simp only [extentsCover, decide_eq_true_eq] at h
    subst h
    simp [pySlice]
  | cons e es' ih =>
    intro lo hi h hhi
    simp only [extentsCover, Bool.and_eq_true, decide_eq_true_eq] at h
    obtain ⟨⟨h1, h2⟩, h3⟩ := h
    subst h1
    have hb : e.2 ≤ hi := extentsCover_le es' e.2 hi h3
    simp only [List.map_cons, List.flatten_cons]
    rw [ih e.2 hi h3 hhi]
    exact pySlice_append text e.1 e.2 hi h2 hb hhi

/-- The interleaved extents of the pre-elision blocks tile `[lo, len)` when
the matches are valid from offset `lo`. -/
theorem extents_cover_aux (len : Nat) :
    ∀ (ms : List Match) (lo : Nat), validMatchesFrom lo len ms = true →
      extentsCover lo len
        (interleave
          (List.zip (lo :: ms.map (fun m => m.stop)) (ms.map (fun m => m.start) ++ [len]))
          (code_limits ms)) = true := by
  intro ms
  induction ms with
  | nil =>
    intro lo h
    simp only [validMatchesFrom, decide_eq_true_eq] at h
    simp [extentsCover, interleave, code_limits, h]
  | cons m ms' ih =>
    intro lo h
    simp only [validMatchesFrom, Bool.and_eq_true, decide_eq_true_eq] at h
    obtain ⟨⟨h1, h2⟩, h3⟩ := h
    have hrec := ih m.stop h3
    simp only [List.map_cons, List.cons_append, List.zip_cons_cons, code_limits]
    rw [show interleave
        ((lo, m.start) :: List.zip (m.stop :: ms'.map (fun x => x.stop)) (ms'.map (fun x => x.start) ++ [len]))
        ((m.start, m.stop) :: ms'.map (fun x => (x.start, x.stop)))
      = (lo, m.start) :: (m.start, m.stop) ::
          interleave (List.zip (m.stop :: ms'.map (fun x => x.stop)) (ms'.map (fun x => x.start) ++ [len]))
            (ms'.map (fun x => (x.start, x.stop))) from rfl]
    simp only [extentsCover, Bool.and_eq_true, decide_eq_true_eq]
    exact ⟨⟨by simp, h1⟩, ⟨by simp, h2⟩, by simpa [code_limits] using hrec⟩

/-- C5: under `finditer`'s guarantees (matches in increasing order,
non-overlapping, inside the text), the `(start, end)` extents of the
pre-elision block sequence — prose limits interleaved with code-match
extents, the notional extents of later-elided empty PROSE blocks included —
tile the document exactly, with no gaps and no overlaps; concatenating the
corresponding source spans reconstructs the document. -/
theorem extents_partition (text : List Char) (ms : List Match)
    (hv : validMatchesFrom 0 text.length ms = true) :
    extentsCover 0 text.length (all_extents text.length ms) = true
    ∧ ((all_extents text.length ms).map (fun e => pySlice text e.1 e.2)).flatten = text := by
  have hcov : extentsCover 0 text.length (all_extents text.length ms) = true := by
    rw [all_extents, text_limits, text_starts, text_stops]
    exact extents_cover_aux text.length ms 0 hv
  refine ⟨hcov, ?_⟩
  rw [extentsCover_join text (all_extents text.length ms) 0 text.length hcov (le_refl _)]
  simp [pySlice]

/-- Witness for C5: the single-fence Scenario A document with its one
match, which spans `[6, 40)` of the 40-character text: the extents
`(0,6) (6,40) (40,40)` tile it exactly. -/
theorem extents_partition_witness :
    validMatchesFrom 0 (String.toList "Hello\n```\x7b.dash app=sub.py\x7d\nignored\n```\n").length
        [{ start := 6, stop := 40, raw := "```\x7b.dash app=sub.py\x7d\nignored\n```\n"
           fence := "```", attributes := ".dash app=sub.py", content := "ignored" }] = true
    ∧ extentsCover 0 (String.toList "Hello\n```\x7b.dash app=sub.py\x7d\nignored\n```\n").length
        (all_extents (String.toList "Hello\n```\x7b.dash app=sub.py\x7d\nignored\n```\n").length
          [{ start := 6, stop := 40, raw := "```\x7b.dash app=sub.py\x7d\nignored\n```\n"
             fence := "```", attributes := ".dash app=sub.py", content := "ignored" }]) = true :=
  ⟨by decide,
   (extents_partition (String.toList "Hello\n```\x7b.dash app=sub.py\x7d\nignored\n```\n")
      [{ start := 6, stop := 40, raw := "```\x7b.dash app=sub.py\x7d\nignored\n```\n"
         fence := "```", attributes := ".dash app=sub.py", content := "ignored" }]
      (by decide)).1⟩
